import Mathlib

/-
Verification development for two source files of this repository:
  src/Storages/MergeTree/MergeTreeSource.cpp
  src/Processors/Formats/Impl/JSONAsStringRowInputFormat.cpp

The C++ is embedded shallowly: the async-reading control block becomes a
record over which every operation is a pure function, assertion failures
(chassert) become the value none, the EventFD readiness signal becomes a
saturating counter (write increments it, a wait-and-consume resets it to 0),
and straight-line bodies are decomposed into lists of micro steps so that
statement order inside one operation remains observable.
-/

namespace MergeTreeSourceModel

/-- Stage of the async reading state machine, from MergeTreeSource.cpp:
NotStarted, InProgress, IsFinished (comment in source: NotStarted ->
InProgress -> IsFinished -> NotStarted ...). -/
inductive Stage
  | NotStarted
  | InProgress
  | IsFinished
deriving DecidableEq, Repr

/-- The successor along the documented stage cycle. -/
def stageNext : Stage → Stage
  | Stage.NotStarted => Stage.InProgress
  | Stage.InProgress => Stage.IsFinished
  | Stage.IsFinished => Stage.NotStarted

/-- A data chunk; the adapter only inspects whether it has rows, so it is
modelled by its row count. -/
structure Chunk where
  numRows : Nat
deriving DecidableEq, Repr

/-- Chunk.hasRows from the pipeline chunk type: true when the row count is
non-zero. -/
def Chunk.hasRows (c : Chunk) : Bool := c.numRows != 0

/-- A default-constructed Chunk() as returned by tryGenerate on the
offloading path: zero rows. -/
def Chunk.empty : Chunk := { numRows := 0 }

/-- Opaque token standing for a captured std::exception_ptr. -/
abbrev Err := Nat

/-- ChunkAndProgress: the value one read() call produces (chunk plus the
rows/bytes physically read). -/
structure ChunkAndProgress where
  chunk : Chunk
  num_read_rows : Nat
  num_read_bytes : Nat
deriving DecidableEq, Repr

/-- State of AsyncReadingState::Control: the atomic stage, the EventFD
counter (write increments, read consumes to 0), the result slot and the
error slot. -/
structure Control where
  stage : Stage
  eventCount : Nat
  chunk : ChunkAndProgress
  exception : Option Err
deriving DecidableEq, Repr

/-- One primitive statement of a Control method body: a slot write, a stage
store, an EventFD write, or an EventFD read (wait and consume). -/
inductive MicroStep
  | storeChunk (v : ChunkAndProgress)
  | storeException (e : Err)
  | setStage (s : Stage)
  | signalEvent
  | consumeEvent
deriving DecidableEq, Repr

/-- Effect of one micro step on the control block. -/
def applyMicro (c : Control) : MicroStep → Control
  | MicroStep.storeChunk v => { c with chunk := v }
  | MicroStep.storeException e => { c with exception := some e }
  | MicroStep.setStage s => { c with stage := s }
  | MicroStep.signalEvent => { c with eventCount := c.eventCount + 1 }
  | MicroStep.consumeEvent => { c with eventCount := 0 }

/-- Body of Control::finish(): stage = IsFinished; event.write(). -/
def finishSteps : List MicroStep :=
  [MicroStep.setStage Stage.IsFinished, MicroStep.signalEvent]

/-- Body of Control::setResult: chunk = std::move(chunk_); finish(). -/
def setResultSteps (v : ChunkAndProgress) : List MicroStep :=
  MicroStep.storeChunk v :: finishSteps

/-- Body of Control::setException: exception = exception_; finish(). -/
def setExceptionSteps (e : Err) : List MicroStep :=
  MicroStep.storeException e :: finishSteps

/-- Control::setResult: chassert(stage == InProgress) then run the body;
none models the assertion firing. -/
def Control.setResult (c : Control) (v : ChunkAndProgress) : Option Control :=
  if c.stage = Stage.InProgress then
    some ((setResultSteps v).foldl applyMicro c)
  else
    none

/-- Control::setException: chassert(stage == InProgress) then run the body;
none models the assertion firing. -/
def Control.setException (c : Control) (e : Err) : Option Control :=
  if c.stage = Stage.InProgress then
    some ((setExceptionSteps e).foldl applyMicro c)
  else
    none

/-- Control::getResult: chassert(stage == IsFinished); event.read();
stage = NotStarted; then rethrow the stored exception if set, else return
the stored chunk. The returned state keeps both slots as the source leaves
them (neither slot is cleared). -/
def Control.getResult (c : Control) : Option (Control × Except Err ChunkAndProgress) :=
  if c.stage = Stage.IsFinished then
    some
      (([MicroStep.consumeEvent, MicroStep.setStage Stage.NotStarted]).foldl applyMicro c,
       match c.exception with
       | some e => Except.error e
       | none => Except.ok c.chunk)
  else
    none

/-- AsyncReadingState::start: chassert(stage == NotStarted);
stage = InProgress; return control. none models the assertion firing. -/
def AsyncReadingState.start (c : Control) : Option Control :=
  if c.stage = Stage.NotStarted then
    some (applyMicro c (MicroStep.setStage Stage.InProgress))
  else
    none

/-- Destructor of AsyncReadingState: if (stage == InProgress)
event.read(). Returns whether the wait-and-consume was performed together
with the resulting control state. -/
def AsyncReadingState.destruct (c : Control) : Bool × Control :=
  if c.stage = Stage.InProgress then
    (true, applyMicro c MicroStep.consumeEvent)
  else
    (false, c)

/-- Body of the closure tryGenerate submits to the task runner: try
setResult(algorithm read result) and on a raised error setException with the
captured error. The read outcome is the parameter. -/
def jobBody (outcome : Except Err ChunkAndProgress) (c : Control) : Option Control :=
  match outcome with
  | Except.ok v => Control.setResult c v
  | Except.error e => Control.setException c e

/-- ISource::Status values used by MergeTreeSource::prepare. -/
inductive Status
  | Ready
  | Async
  | Finished
  | PortFull
deriving DecidableEq, Repr

/-- Observable state of a MergeTreeSource: whether async_reading_state is
present, whether isCancelled() holds, and the control block. -/
structure MergeTreeSourceState where
  hasAsyncState : Bool
  cancelled : Bool
  control : Control
deriving DecidableEq, Repr

/-- MergeTreeSource::prepare. The result of delegating to ISource::prepare
(code outside these two files) is the parameter defaultStatus. The Bool
records whether getPort().finish() was called. -/
def prepare (defaultStatus : Status) (s : MergeTreeSourceState) : Status × Bool :=
  if s.hasAsyncState = false then
    (defaultStatus, false)
  else if s.cancelled then
    (Status.Finished, true)
  else if s.hasAsyncState && (s.control.stage = Stage.InProgress : Bool) then
    (Status.Async, false)
  else
    (defaultStatus, false)

/-- Modelled from the spec: the decision order the specification states for
prepare, namely cancellation first (report Finished, finishing the port),
then the offloading-enabled InProgress check (report Async), else delegate
to the default readiness determination, which is not part of these two
source files and is passed in as defaultStatus. -/
def prepareSpec (defaultStatus : Status) (s : MergeTreeSourceState) : Status × Bool :=
  if s.cancelled then
    (Status.Finished, true)
  else if s.hasAsyncState && (s.control.stage = Stage.InProgress : Bool) then
    (Status.Async, false)
  else
    (defaultStatus, false)

/-- MergeTreeSource::reportProgress: first component is the progress(rows,
bytes) call (none when it is skipped), second the returned optional chunk. -/
def reportProgress (cp : ChunkAndProgress) : Option (Nat × Nat) × Option Chunk :=
  ((if cp.num_read_rows != 0 || cp.num_read_bytes != 0 then
      some (cp.num_read_rows, cp.num_read_bytes)
    else
      none),
   (if cp.chunk.hasRows then some cp.chunk else none))

/-- Outcome of one tryGenerate call: a returned std::optional of Chunk, a
propagated error, or a failed chassert. -/
inductive TGOut
  | yield (c : Option Chunk)
  | raise (e : Err)
  | assertFail
deriving DecidableEq, Repr

/-- The offloading branch of MergeTreeSource::tryGenerate: consume a
finished cycle through getResult and reportProgress, or start a new cycle
and schedule the job, returning an engaged optional holding Chunk(). The
Bool records whether a job was submitted to the runner. -/
def tryGenerateAsync (c : Control) : Control × Bool × TGOut :=
  if c.stage = Stage.IsFinished then
    match Control.getResult c with
    | some (c2, Except.ok v) => (c2, false, TGOut.yield (reportProgress v).2)
    | some (c2, Except.error e) => (c2, false, TGOut.raise e)
    | none => (c, false, TGOut.assertFail)
  else if c.stage = Stage.NotStarted then
    match AsyncReadingState.start c with
    | some c2 => (c2, true, TGOut.yield (some Chunk.empty))
    | none => (c, false, TGOut.assertFail)
  else
    (c, false, TGOut.assertFail)

/-- MergeTreeSource::tryGenerate: offloading branch when async_reading_state
is present, otherwise the synchronous read (its outcome is the parameter,
as algorithm read() is external). -/
def tryGenerate (readOutcome : Except Err ChunkAndProgress)
    (s : MergeTreeSourceState) : MergeTreeSourceState × Bool × TGOut :=
  if s.hasAsyncState then
    let r := tryGenerateAsync s.control
    ({ s with control := r.1 }, r.2.1, r.2.2)
  else
    match readOutcome with
    | Except.ok v => (s, false, TGOut.yield (reportProgress v).2)
    | Except.error e => (s, false, TGOut.raise e)

/-- A control-block operation, for reasoning about operation sequences. -/
inductive Op
  | opStart
  | opSetResult (v : ChunkAndProgress)
  | opSetException (e : Err)
  | opGetResult
deriving DecidableEq, Repr

/-- Apply one operation to the control block; none when its chassert
precondition fails. -/
def applyOp (op : Op) (c : Control) : Option Control :=
  match op with
  | Op.opStart => AsyncReadingState.start c
  | Op.opSetResult v => Control.setResult c v
  | Op.opSetException e => Control.setException c e
  | Op.opGetResult => (Control.getResult c).map (fun r => r.1)

/-- Run a sequence of operations; none as soon as one assertion fails. -/
def runOps : List Op → Control → Option Control
  | [], c => some c
  | op :: ops, c =>
    match applyOp op c with
    | none => none
    | some c2 => runOps ops c2

/-- The freshly constructed control block: NotStarted, no pending signal,
empty slots. -/
def control0 : Control :=
  { stage := Stage.NotStarted, eventCount := 0,
    chunk := { chunk := { numRows := 0 }, num_read_rows := 0, num_read_bytes := 0 },
    exception := none }

/-- The stage each operation's chassert requires on entry. -/
def opPre : Op → Stage
  | Op.opStart => Stage.NotStarted
  | Op.opSetResult _ => Stage.InProgress
  | Op.opSetException _ => Stage.InProgress
  | Op.opGetResult => Stage.IsFinished

/-- A sample read result used in concrete instantiations. -/
def cpSample : ChunkAndProgress :=
  { chunk := { numRows := 3 }, num_read_rows := 3, num_read_bytes := 12 }

/-- A sample full cycle of operations: start, finish with a result, consume. -/
def opsSample : List Op := [Op.opStart, Op.opSetResult cpSample, Op.opGetResult]

/-- The control state after running opsSample from control0. -/
def ctrlSampleEnd : Control := { control0 with chunk := cpSample }

/-- A control block with an in-flight cycle. -/
def ctrlInProgress : Control := { control0 with stage := Stage.InProgress }

/-- A finished control block holding a captured error. -/
def ctrlErr : Control :=
  { stage := Stage.IsFinished, eventCount := 1, chunk := cpSample, exception := some 7 }

/-- A read result with zero rows but non-zero read counts. -/
def cpZeroRows : ChunkAndProgress :=
  { chunk := { numRows := 0 }, num_read_rows := 0, num_read_bytes := 100 }

end MergeTreeSourceModel

namespace JSONAsStringModel

/-- The opening brace character, written by code point to keep braces out of
literals. -/
def braceOpen : Char := Char.ofNat 123

/-- The closing brace character. -/
def braceClose : Char := Char.ofNat 125

/-- The double-quote character. -/
def quoteChar : Char := Char.ofNat 34

/-- The backslash character. -/
def backslashChar : Char := Char.ofNat 92

/-- Errors raised by readJSONObject: only INCORRECT_DATA is relevant. -/
inductive ReadErr
  | incorrectData
deriving DecidableEq, Repr

/-- Core loop of JSONAsStringRowInputFormat::readJSONObject, embedded over
the remaining bytes after the opening brace. Arguments mirror the loop
state: outstanding balance and the quotes flag. Returns the number of bytes
consumed up to and including the brace that returns the balance to zero, or
none for the INCORRECT_DATA raised at end of input. A backslash consumes
the following byte unchanged, in quotes or not; a backslash as the final
byte is consumed and the loop then fails at end of input. -/
def scanAux : List Char → Nat → Bool → Option Nat
  | _, 0, _ => some 0
  | [], _ + 1, _ => none
  | ch :: rest, bal + 1, quotes =>
    if quotes then
      if ch = quoteChar then Option.map (· + 1) (scanAux rest (bal + 1) false)
      else if ch = backslashChar then
        match rest with
        | [] => none
        | _ :: rest2 => Option.map (· + 2) (scanAux rest2 (bal + 1) true)
      else Option.map (· + 1) (scanAux rest (bal + 1) true)
    else
      if ch = braceOpen then Option.map (· + 1) (scanAux rest (bal + 2) false)
      else if ch = braceClose then Option.map (· + 1) (scanAux rest bal false)
      else if ch = backslashChar then
        match rest with
        | [] => none
        | _ :: rest2 => Option.map (· + 2) (scanAux rest2 (bal + 1) false)
      else if ch = quoteChar then Option.map (· + 1) (scanAux rest (bal + 1) true)
      else Option.map (· + 1) (scanAux rest (bal + 1) false)

/-- JSONAsStringRowInputFormat::readJSONObject over an input buffer: raise
INCORRECT_DATA when the current byte is not an opening brace or when input
ends before the balance returns to zero (so nothing is inserted), else
return the inserted span (checkpoint through the matching closing brace)
and the remaining buffer after it. The empty-buffer case is the same
INCORRECT_DATA raise (the caller never reaches it at end of input). -/
def readJSONObject (input : List Char) : Except ReadErr (List Char × List Char) :=
  match input with
  | [] => Except.error ReadErr.incorrectData
  | ch :: rest =>
    if ch = braceOpen then
      match scanAux rest 1 false with
      | some n => Except.ok (ch :: rest.take n, rest.drop n)
      | none => Except.error ReadErr.incorrectData
    else
      Except.error ReadErr.incorrectData

/-- State of the reference brace-tracking machine used to characterize the
scanner: the nesting balance, whether inside a double-quoted string, and
whether the previous byte was an unconsumed backslash. -/
structure JState where
  balance : Nat
  quotes : Bool
  escaped : Bool
deriving DecidableEq, Repr

/-- One byte of the reference machine: a byte right after a backslash is
inert; inside quotes only a quote or backslash matters; outside quotes the
braces adjust the balance and a quote or backslash switches mode. -/
def jstep (st : JState) (ch : Char) : JState :=
  if st.escaped then { st with escaped := false }
  else if st.quotes then
    if ch = quoteChar then { st with quotes := false }
    else if ch = backslashChar then { st with escaped := true }
    else st
  else
    if ch = braceOpen then { st with balance := st.balance + 1 }
    else if ch = braceClose then { st with balance := st.balance - 1 }
    else if ch = quoteChar then { st with quotes := true }
    else if ch = backslashChar then { st with escaped := true }
    else st

/-- Run the reference machine over a byte list. -/
def jrun (s : List Char) (st : JState) : JState := s.foldl jstep st

/-- What a successful scan from a given balance and quote mode must mean in
terms of the reference machine: at least one byte consumed, the consumed
span ends with a closing brace, the machine balance is zero after the span
and non-zero after every proper span prefix (so the span stops at the
first brace that balances). -/
def ScanSpec (s : List Char) (bal : Nat) (q : Bool) (n : Nat) : Prop :=
  1 ≤ n ∧ n ≤ s.length ∧ (∃ t, s.take n = t ++ [braceClose]) ∧
  (jrun (s.take n) ⟨bal, q, false⟩).balance = 0 ∧
  (∀ m, m < n → (jrun (s.take m) ⟨bal, q, false⟩).balance ≠ 0)

/-- A concrete buffer holding one JSON object whose quoted string contains a
closing brace, followed by further bytes. -/
def inpW : List Char := [braceOpen, quoteChar, braceClose, quoteChar, braceClose, 'Y']

/-- The object span of inpW. -/
def spanW : List Char := [braceOpen, quoteChar, braceClose, quoteChar, braceClose]

/-- The bytes of inpW after the object span. -/
def restW : List Char := ['Y']

end JSONAsStringModel

namespace MergeTreeSourceModel

/-- Single-operation stage lemma: every successful control-block operation
moves the stage exactly one step along the cycle, and the operation kind
determines which edge was taken. -/
theorem applyOp_stage (op : Op) (c c2 : Control) (h : applyOp op c = some c2) :
    c2.stage = stageNext c.stage ∧ c.stage = opPre op := by
  cases op with
  | opStart =>
    simp only [applyOp, AsyncReadingState.start] at h
    by_cases hs : c.stage = Stage.NotStarted
    · rw [if_pos hs] at h
      have h2 := Option.some.inj h
      subst h2
      exact ⟨by simp [applyMicro, hs, stageNext], by simp [opPre, hs]⟩
    · rw [if_neg hs] at h
      exact Option.noConfusion h
  | opSetResult v =>
    simp only [applyOp, Control.setResult] at h
    by_cases hs : c.stage = Stage.InProgress
    · rw [if_pos hs] at h
      have h2 := Option.some.inj h
      subst h2
      exact ⟨by simp [setResultSteps, finishSteps, applyMicro, hs, stageNext],
             by simp [opPre, hs]⟩
    · rw [if_neg hs] at h
      exact Option.noConfusion h
  | opSetException e =>
    simp only [applyOp, Control.setException] at h
    by_cases hs : c.stage = Stage.InProgress
    · rw [if_pos hs] at h
      have h2 := Option.some.inj h
      subst h2
      exact ⟨by simp [setExceptionSteps, finishSteps, applyMicro, hs, stageNext],
             by simp [opPre, hs]⟩
    · rw [if_neg hs] at h
      exact Option.noConfusion h
  | opGetResult =>
    simp only [applyOp, Control.getResult] at h
    by_cases hs : c.stage = Stage.IsFinished
    · rw [if_pos hs] at h
      simp only [Option.map] at h
      have h2 := Option.some.inj h
      subst h2
      exact ⟨by simp [applyMicro, hs, stageNext], by simp [opPre, hs]⟩
    · rw [if_neg hs] at h
      simp only [Option.map] at h
      exact Option.noConfusion h

/-- C1: for every sequence of control-block operations respecting the
preconditions, the Stage only moves along the cycle NotStarted to
InProgress (start), InProgress to IsFinished (setResult or setException),
IsFinished to NotStarted (getResult): each successful operation takes
exactly one cycle edge matching its kind, and after n successful
operations the stage is the n-th successor along the cycle, so no
transition is ever skipped or reversed. -/
theorem C1_stage_cycle :
    (∀ (op : Op) (c c2 : Control), applyOp op c = some c2 →
      c2.stage = stageNext c.stage ∧ c.stage = opPre op) ∧
    (∀ (ops : List Op) (c c2 : Control), runOps ops c = some c2 →
      c2.stage = stageNext^[ops.length] c.stage) := by
  refine ⟨applyOp_stage, ?_⟩
  intro ops
  induction ops with
  | nil =>
    intro c c2 h
    simp only [runOps] at h
    cases h
    rfl
  | cons op ops ih =>
    intro c c2 h
    simp only [runOps] at h
    cases heq : applyOp op c with
    | none => rw [heq] at h; cases h
    | some c3 =>
      rw [heq] at h
      have h1 := (applyOp_stage op c c3 heq).1
      have h2 := ih c3 c2 h
      rw [h2, h1, List.length_cons, Function.iterate_succ_apply]

/-- Witness for C1: a concrete full cycle from the fresh control block ends
with the stage equal to the third successor of NotStarted on the cycle. -/
theorem C1_stage_cycle_witness :
    runOps opsSample control0 = some ctrlSampleEnd ∧
    ctrlSampleEnd.stage = stageNext^[opsSample.length] control0.stage :=
  ⟨by decide, C1_stage_cycle.2 opsSample control0 ctrlSampleEnd (by decide)⟩

/-- C2: when the stage is IsFinished, getResult consumes the readiness
signal (the event counter is 0 afterwards), sets the stage to NotStarted,
and returns the stored result or re-raises exactly the stored error; the
stage is NotStarted afterwards in the error case as well, since the state
update does not depend on which slot is filled. -/
theorem C2_getResult (c : Control) (h : c.stage = Stage.IsFinished) :
    Control.getResult c =
      some ({ c with stage := Stage.NotStarted, eventCount := 0 },
            match c.exception with
            | some e => Except.error e
            | none => Except.ok c.chunk) := by
  simp [Control.getResult, h, applyMicro]

/-- Witness for C2: on a finished control block holding captured error 7,
getResult returns to NotStarted with the signal consumed and re-raises
error 7. -/
theorem C2_getResult_witness :
    ctrlErr.stage = Stage.IsFinished ∧
    Control.getResult ctrlErr =
      some ({ ctrlErr with stage := Stage.NotStarted, eventCount := 0 }, Except.error 7) :=
  ⟨rfl, by rw [C2_getResult ctrlErr rfl]; rfl⟩

/-- C3: with offloading enabled and stage NotStarted, tryGenerate moves the
stage to InProgress, schedules a job and returns an engaged optional
holding an empty chunk, leaving both slots untouched (the read algorithm
is not run inline); the scheduled job body, run on the in-progress control
block, stores the result and signals readiness on success, or stores the
captured error and signals readiness on failure. -/
theorem C3_offload (c : Control) (h : c.stage = Stage.NotStarted) :
    tryGenerateAsync c =
      ({ c with stage := Stage.InProgress }, true, TGOut.yield (some Chunk.empty)) ∧
    (∀ v, jobBody (Except.ok v) { c with stage := Stage.InProgress } =
        some { c with chunk := v, stage := Stage.IsFinished, eventCount := c.eventCount + 1 }) ∧
    (∀ e, jobBody (Except.error e) { c with stage := Stage.InProgress } =
        some { c with exception := some e, stage := Stage.IsFinished, eventCount := c.eventCount + 1 }) := by
  refine ⟨?_, ?_, ?_⟩ <;>
    simp [tryGenerateAsync, AsyncReadingState.start, h, jobBody, Control.setResult,
      Control.setException, setResultSteps, setExceptionSteps, finishSteps, applyMicro]

/-- Witness for C3: from the fresh control block, tryGenerate starts the
cycle, schedules a job, and yields the engaged empty chunk. -/
theorem C3_offload_witness :
    control0.stage = Stage.NotStarted ∧
    tryGenerateAsync control0 =
      ({ control0 with stage := Stage.InProgress }, true, TGOut.yield (some Chunk.empty)) :=
  ⟨rfl, (C3_offload control0 rfl).1⟩

end MergeTreeSourceModel

namespace MergeTreeSourceModel

/-- C4 counterexample: with offloading enabled and cancellation requested
while the cycle is InProgress, prepare reports Finished (and finishes the
output port) immediately, while the in-flight cycle is still InProgress,
contradicting the claim that prepare keeps reporting Async and never
reports Finished before the cycle reaches IsFinished. -/
theorem C4_counterexample :
    prepare Status.Ready
        { hasAsyncState := true, cancelled := true, control := ctrlInProgress } =
      (Status.Finished, true) ∧
    ctrlInProgress.stage = Stage.InProgress := by
  decide

/-- C4 amended: once cancellation is requested, prepare reports Finished at
once (finishing the output port) even while the cycle is still InProgress;
prepare reports Async for an InProgress cycle only while cancellation has
not been requested. -/
theorem C4_cancel_behavior (d : Status) (s : MergeTreeSourceState)
    (ha : s.hasAsyncState = true) :
    (s.cancelled = true → prepare d s = (Status.Finished, true)) ∧
    (s.cancelled = false → s.control.stage = Stage.InProgress →
      prepare d s = (Status.Async, false)) := by
  constructor
  · intro hc
    simp [prepare, ha, hc]
  · intro hc hst
    simp [prepare, ha, hc, hst]

/-- Witness for C4: the amended behaviour at a concrete cancelled,
in-progress state. -/
theorem C4_cancel_behavior_witness :
    ({ hasAsyncState := true, cancelled := true, control := ctrlInProgress } :
        MergeTreeSourceState).hasAsyncState = true ∧
    prepare Status.Ready
        { hasAsyncState := true, cancelled := true, control := ctrlInProgress } =
      (Status.Finished, true) :=
  ⟨rfl, (C4_cancel_behavior Status.Ready
    { hasAsyncState := true, cancelled := true, control := ctrlInProgress } rfl).1 rfl⟩

/-- C5 counterexample: with offloading disabled and cancellation requested,
the code delegates to the default readiness determination (here Ready,
which per the spec the default may return whenever another generate call
can be attempted) without finishing the port, whereas the claimed decision
order reports Finished with the port finished. -/
theorem C5_counterexample :
    prepare Status.Ready { hasAsyncState := false, cancelled := true, control := control0 } =
      (Status.Ready, false) ∧
    prepareSpec Status.Ready { hasAsyncState := false, cancelled := true, control := control0 } =
      (Status.Finished, true) := by
  decide

/-- C5 amended: when the async reading state is present, prepare follows
exactly the claimed order (cancelled first reporting Finished and finishing
the port, then the InProgress check reporting Async, else the default);
when it is absent, prepare unconditionally delegates to the default
readiness determination, with no cancellation check in this override. -/
theorem C5_prepare_order (d : Status) (s : MergeTreeSourceState) :
    (s.hasAsyncState = false → prepare d s = (d, false)) ∧
    (s.hasAsyncState = true → prepare d s = prepareSpec d s) := by
  constructor
  · intro ha
    simp [prepare, ha]
  · intro ha
    by_cases hc : s.cancelled
    · simp [prepare, prepareSpec, ha, hc]
    · by_cases hst : s.control.stage = Stage.InProgress
      · simp [prepare, prepareSpec, ha, hc, hst]
      · simp [prepare, prepareSpec, ha, hc, hst]

/-- Witness for C5: the amended statement at a concrete enabled, cancelled
state, where code and spec order agree. -/
theorem C5_prepare_order_witness :
    ({ hasAsyncState := true, cancelled := true, control := control0 } :
        MergeTreeSourceState).hasAsyncState = true ∧
    prepare Status.Ready { hasAsyncState := true, cancelled := true, control := control0 } =
      prepareSpec Status.Ready { hasAsyncState := true, cancelled := true, control := control0 } :=
  ⟨rfl, (C5_prepare_order Status.Ready
    { hasAsyncState := true, cancelled := true, control := control0 }).2 rfl⟩

/-- C6: under the precondition stage == InProgress, after the first micro
step of setResult only the result slot is written (stage and signal
untouched), after the second the stage is IsFinished (signal still
untouched), and the completed call has additionally fired the readiness
signal, leaving the error slot unchanged; symmetrically for setException,
which leaves the result slot unchanged. The slot write and the IsFinished
transition therefore both precede the signal firing. -/
theorem C6_finish_order (c : Control) (h : c.stage = Stage.InProgress)
    (v : ChunkAndProgress) (e : Err) :
    ((setResultSteps v).take 1).foldl applyMicro c = { c with chunk := v } ∧
    ((setResultSteps v).take 2).foldl applyMicro c = { c with chunk := v, stage := Stage.IsFinished } ∧
    Control.setResult c v = some { c with chunk := v, stage := Stage.IsFinished, eventCount := c.eventCount + 1 } ∧
    ((setExceptionSteps e).take 1).foldl applyMicro c = { c with exception := some e } ∧
    ((setExceptionSteps e).take 2).foldl applyMicro c = { c with exception := some e, stage := Stage.IsFinished } ∧
    Control.setException c e = some { c with exception := some e, stage := Stage.IsFinished, eventCount := c.eventCount + 1 } := by
  refine ⟨?_, ?_, ?_, ?_, ?_, ?_⟩ <;>
    simp [setResultSteps, setExceptionSteps, finishSteps, Control.setResult,
      Control.setException, applyMicro, h]

/-- Witness for C6: a completed setResult on a concrete in-progress control
block stores the chunk, reaches IsFinished and fires the signal. -/
theorem C6_finish_order_witness :
    ctrlInProgress.stage = Stage.InProgress ∧
    Control.setResult ctrlInProgress cpSample =
      some { ctrlInProgress with chunk := cpSample, stage := Stage.IsFinished, eventCount := ctrlInProgress.eventCount + 1 } :=
  ⟨rfl, (C6_finish_order ctrlInProgress rfl cpSample 7).2.2.1⟩

/-- C7: destruction of the async reading state performs the wait-and-consume
on the readiness signal exactly when the stage is InProgress at that
moment; for NotStarted or IsFinished it performs no wait and leaves the
control block untouched. -/
theorem C7_destructor (c : Control) :
    ((AsyncReadingState.destruct c).1 = true ↔ c.stage = Stage.InProgress) ∧
    (c.stage ≠ Stage.InProgress → AsyncReadingState.destruct c = (false, c)) := by
  by_cases hst : c.stage = Stage.InProgress <;>
    simp [AsyncReadingState.destruct, hst]

/-- Witness for C7: on a fresh NotStarted control block the destructor does
not wait. -/
theorem C7_destructor_witness :
    control0.stage ≠ Stage.InProgress ∧
    AsyncReadingState.destruct control0 = (false, control0) :=
  ⟨by decide, (C7_destructor control0).2 (by decide)⟩

/-- C8: reportProgress yields a chunk exactly when it has at least one row
(and then it is the chunk itself), and reports the progress counts exactly
when at least one of the row or byte counts is non-zero; in particular a
zero-row result with non-zero counts has its counts reported while no
chunk is yielded. -/
theorem C8_reportProgress (cp : ChunkAndProgress) :
    ((reportProgress cp).2 = some cp.chunk ↔ cp.chunk.numRows ≠ 0) ∧
    ((reportProgress cp).2 = none ↔ cp.chunk.numRows = 0) ∧
    ((reportProgress cp).1 = some (cp.num_read_rows, cp.num_read_bytes) ↔
      (cp.num_read_rows ≠ 0 ∨ cp.num_read_bytes ≠ 0)) ∧
    ((reportProgress cp).1 = none ↔ (cp.num_read_rows = 0 ∧ cp.num_read_bytes = 0)) := by
  by_cases h1 : cp.chunk.numRows = 0 <;>
    by_cases h2 : cp.num_read_rows = 0 <;>
    by_cases h3 : cp.num_read_bytes = 0 <;>
    simp [reportProgress, Chunk.hasRows, h1, h2, h3]

/-- Witness for C8: the zero-row, non-zero-count case reports the counts
and yields no chunk. -/
theorem C8_reportProgress_witness :
    (reportProgress cpZeroRows).1 = some (0, 100) ∧ (reportProgress cpZeroRows).2 = none :=
  ⟨((C8_reportProgress cpZeroRows).2.2.1).mpr (Or.inr (by decide)),
   ((C8_reportProgress cpZeroRows).2.1).mpr rfl⟩

/-- C9: every control-block operation rejects a precondition violation by
assertion (modelled as none) rather than silently succeeding: getResult
when the stage is not IsFinished, start when not NotStarted, and
setResult or setException when not InProgress. -/
theorem C9_assertions (c : Control) (v : ChunkAndProgress) (e : Err) :
    (c.stage ≠ Stage.IsFinished → Control.getResult c = none) ∧
    (c.stage ≠ Stage.NotStarted → AsyncReadingState.start c = none) ∧
    (c.stage ≠ Stage.InProgress →
      Control.setResult c v = none ∧ Control.setException c e = none) := by
  refine ⟨?_, ?_, ?_⟩ <;> intro h <;>
    simp [Control.getResult, AsyncReadingState.start, Control.setResult,
      Control.setException, h]

/-- Witness for C9: getResult on a fresh NotStarted control block fails its
assertion. -/
theorem C9_assertions_witness :
    control0.stage ≠ Stage.IsFinished ∧ Control.getResult control0 = none :=
  ⟨by decide, (C9_assertions control0 cpSample 7).1 (by decide)⟩

end MergeTreeSourceModel

namespace JSONAsStringModel

/-- The special characters are pairwise distinct where the scanner branches
need it. -/
theorem bc_ne_bo : braceClose ≠ braceOpen := by decide

/-- Distinctness of the quote from both braces and the backslash. -/
theorem qc_ne_bo : quoteChar ≠ braceOpen := by decide

/-- Distinctness used in the close-brace branch. -/
theorem qc_ne_bc : quoteChar ≠ braceClose := by decide

/-- Distinctness used in the backslash branches. -/
theorem bs_ne_bo : backslashChar ≠ braceOpen := by decide

/-- Distinctness used in the backslash branches. -/
theorem bs_ne_bc : backslashChar ≠ braceClose := by decide

/-- Distinctness used in the backslash branches. -/
theorem bs_ne_qc : backslashChar ≠ quoteChar := by decide

/-- Distinctness used in the quote branches. -/
theorem qc_ne_bs : quoteChar ≠ backslashChar := by decide

/-- Running the machine over a cons steps once then continues. -/
theorem jrun_cons (ch : Char) (s : List Char) (st : JState) :
    jrun (ch :: s) st = jrun s (jstep st ch) := rfl

/-- An escaped byte is inert: it only clears the escape flag. -/
theorem jstep_escaped (bal : Nat) (q : Bool) (ch : Char) :
    jstep ⟨bal, q, true⟩ ch = ⟨bal, q, false⟩ := by
  simp [jstep]

/-- A closing quote leaves quote mode. -/
theorem jstep_quote_in (bal : Nat) :
    jstep ⟨bal, true, false⟩ quoteChar = ⟨bal, false, false⟩ := by
  simp [jstep]

/-- A backslash inside quotes arms the escape flag. -/
theorem jstep_backslash_in (bal : Nat) :
    jstep ⟨bal, true, false⟩ backslashChar = ⟨bal, true, true⟩ := by
  simp [jstep, bs_ne_qc]

/-- Any other byte inside quotes is inert. -/
theorem jstep_other_in (bal : Nat) (ch : Char)
    (h1 : ch ≠ quoteChar) (h2 : ch ≠ backslashChar) :
    jstep ⟨bal, true, false⟩ ch = ⟨bal, true, false⟩ := by
  simp [jstep, h1, h2]

/-- An opening brace outside quotes increments the balance. -/
theorem jstep_open (bal : Nat) :
    jstep ⟨bal, false, false⟩ braceOpen = ⟨bal + 1, false, false⟩ := by
  simp [jstep]

/-- A closing brace outside quotes decrements the balance. -/
theorem jstep_close (bal : Nat) :
    jstep ⟨bal, false, false⟩ braceClose = ⟨bal - 1, false, false⟩ := by
  simp [jstep, bc_ne_bo]

/-- A quote outside quotes enters quote mode. -/
theorem jstep_quote_out (bal : Nat) :
    jstep ⟨bal, false, false⟩ quoteChar = ⟨bal, true, false⟩ := by
  simp [jstep, qc_ne_bo, qc_ne_bc]

/-- A backslash outside quotes arms the escape flag. -/
theorem jstep_backslash_out (bal : Nat) :
    jstep ⟨bal, false, false⟩ backslashChar = ⟨bal, false, true⟩ := by
  simp [jstep, bs_ne_bo, bs_ne_bc, bs_ne_qc]

/-- Any other byte outside quotes is inert. -/
theorem jstep_other_out (bal : Nat) (ch : Char) (h1 : ch ≠ braceOpen)
    (h2 : ch ≠ braceClose) (h3 : ch ≠ quoteChar) (h4 : ch ≠ backslashChar) :
    jstep ⟨bal, false, false⟩ ch = ⟨bal, false, false⟩ := by
  simp [jstep, h1, h2, h3, h4]

end JSONAsStringModel

namespace JSONAsStringModel

/-- Unfolding: scanning with balance already zero consumes nothing. -/
theorem scanAux_zero (s : List Char) (q : Bool) : scanAux s 0 q = some 0 := by
  rw [scanAux.eq_def]
  cases s <;> simp

/-- Unfolding: end of input with outstanding balance fails. -/
theorem scanAux_nil (bal : Nat) (q : Bool) : scanAux [] (bal + 1) q = none := by
  rw [scanAux.eq_def]

/-- Unfolding: a quote inside quotes leaves quote mode and continues. -/
theorem scanAux_quote_close (rest : List Char) (bal : Nat) :
    scanAux (quoteChar :: rest) (bal + 1) true =
      Option.map (· + 1) (scanAux rest (bal + 1) false) := by
  rw [scanAux.eq_def]
  simp

/-- Unfolding: a backslash inside quotes as the final byte fails. -/
theorem scanAux_quote_escape_nil (bal : Nat) :
    scanAux [backslashChar] (bal + 1) true = none := by
  rw [scanAux.eq_def]
  simp [bs_ne_qc]

/-- Unfolding: a backslash inside quotes consumes the following byte. -/
theorem scanAux_quote_escape (x : Char) (rest2 : List Char) (bal : Nat) :
    scanAux (backslashChar :: x :: rest2) (bal + 1) true =
      Option.map (· + 2) (scanAux rest2 (bal + 1) true) := by
  rw [scanAux.eq_def]
  simp [bs_ne_qc]

/-- Unfolding: any other byte inside quotes is skipped. -/
theorem scanAux_quote_other (ch : Char) (rest : List Char) (bal : Nat)
    (h1 : ch ≠ quoteChar) (h2 : ch ≠ backslashChar) :
    scanAux (ch :: rest) (bal + 1) true =
      Option.map (· + 1) (scanAux rest (bal + 1) true) := by
  rw [scanAux.eq_def]
  simp [h1, h2]

/-- Unfolding: an opening brace outside quotes deepens the balance. -/
theorem scanAux_open (rest : List Char) (bal : Nat) :
    scanAux (braceOpen :: rest) (bal + 1) false =
      Option.map (· + 1) (scanAux rest (bal + 2) false) := by
  rw [scanAux.eq_def]
  simp

/-- Unfolding: a closing brace outside quotes shrinks the balance. -/
theorem scanAux_close (rest : List Char) (bal : Nat) :
    scanAux (braceClose :: rest) (bal + 1) false =
      Option.map (· + 1) (scanAux rest bal false) := by
  rw [scanAux.eq_def]
  simp [bc_ne_bo]

/-- Unfolding: a backslash outside quotes as the final byte fails. -/
theorem scanAux_out_escape_nil (bal : Nat) :
    scanAux [backslashChar] (bal + 1) false = none := by
  rw [scanAux.eq_def]
  simp [bs_ne_bo, bs_ne_bc]

/-- Unfolding: a backslash outside quotes consumes the following byte. -/
theorem scanAux_out_escape (x : Char) (rest2 : List Char) (bal : Nat) :
    scanAux (backslashChar :: x :: rest2) (bal + 1) false =
      Option.map (· + 2) (scanAux rest2 (bal + 1) false) := by
  rw [scanAux.eq_def]
  simp [bs_ne_bo, bs_ne_bc]

/-- Unfolding: a quote outside quotes enters quote mode. -/
theorem scanAux_out_quote (rest : List Char) (bal : Nat) :
    scanAux (quoteChar :: rest) (bal + 1) false =
      Option.map (· + 1) (scanAux rest (bal + 1) true) := by
  rw [scanAux.eq_def]
  simp [qc_ne_bo, qc_ne_bc, qc_ne_bs]

/-- Unfolding: any other byte outside quotes is skipped. -/
theorem scanAux_out_other (ch : Char) (rest : List Char) (bal : Nat)
    (h1 : ch ≠ braceOpen) (h2 : ch ≠ braceClose) (h3 : ch ≠ backslashChar)
    (h4 : ch ≠ quoteChar) :
    scanAux (ch :: rest) (bal + 1) false =
      Option.map (· + 1) (scanAux rest (bal + 1) false) := by
  rw [scanAux.eq_def]
  simp [h1, h2, h3, h4]

/-- Destructing a successful shifted Option.map. -/
theorem map_add_eq_some (o : Option Nat) (a n : Nat)
    (h : Option.map (· + a) o = some n) : ∃ k, o = some k ∧ n = k + a := by
  cases o with
  | none => simp only [Option.map] at h; exact Option.noConfusion h
  | some k =>
    simp only [Option.map] at h
    exact ⟨k, rfl, (Option.some.inj h).symm⟩

/-- Destructing a failed shifted Option.map. -/
theorem map_add_eq_none (o : Option Nat) (a : Nat)
    (h : Option.map (· + a) o = none) : o = none := by
  cases o with
  | none => rfl
  | some k => simp only [Option.map] at h; exact Option.noConfusion h

/-- One inert-or-mode-changing byte in front of a sound scan stays sound. -/
theorem ScanSpec_cons (ch : Char) (rest : List Char) (bal bal2 : Nat)
    (q q2 : Bool) (k : Nat)
    (hstep : jstep ⟨bal + 1, q, false⟩ ch = ⟨bal2 + 1, q2, false⟩)
    (hspec : ScanSpec rest (bal2 + 1) q2 k) :
    ScanSpec (ch :: rest) (bal + 1) q (k + 1) := by
  obtain ⟨h1, h2, ⟨t, ht⟩, h4, h5⟩ := hspec
  refine ⟨Nat.le_add_left 1 k, ?_, ⟨ch :: t, ?_⟩, ?_, ?_⟩
  · simpa [List.length_cons] using Nat.succ_le_succ h2
  · rw [List.take_succ_cons, ht]
    rfl
  · rw [List.take_succ_cons, jrun_cons, hstep]
    exact h4
  · intro m hm
    cases m with
    | zero => simp [jrun]
    | succ j =>
      rw [List.take_succ_cons, jrun_cons, hstep]
      exact h5 j (Nat.lt_of_succ_lt_succ hm)

/-- An armed escape pair in front of a sound scan stays sound. -/
theorem ScanSpec_escape (ch x : Char) (rest2 : List Char) (bal : Nat)
    (q : Bool) (k : Nat)
    (hstep : jstep ⟨bal + 1, q, false⟩ ch = ⟨bal + 1, q, true⟩)
    (hspec : ScanSpec rest2 (bal + 1) q k) :
    ScanSpec (ch :: x :: rest2) (bal + 1) q (k + 2) := by
  obtain ⟨h1, h2, ⟨t, ht⟩, h4, h5⟩ := hspec
  refine ⟨by omega, ?_, ⟨ch :: x :: t, ?_⟩, ?_, ?_⟩
  · simp only [List.length_cons]
    omega
  · rw [List.take_succ_cons, List.take_succ_cons, ht]
    rfl
  · rw [List.take_succ_cons, List.take_succ_cons, jrun_cons, jrun_cons, hstep,
      jstep_escaped]
    exact h4
  · intro m hm
    cases m with
    | zero => simp [jrun]
    | succ m2 =>
      cases m2 with
      | zero =>
        rw [List.take_succ_cons, List.take_zero, jrun_cons, hstep]
        simp [jrun]
      | succ j =>
        rw [List.take_succ_cons, List.take_succ_cons, jrun_cons, jrun_cons, hstep,
          jstep_escaped]
        exact h5 j (by omega)

/-- The closing brace that balances the scan is itself a sound span. -/
theorem ScanSpec_close_base (rest : List Char) :
    ScanSpec (braceClose :: rest) 1 false 1 := by
  refine ⟨Nat.le_refl 1, by simp, ⟨[], by simp⟩, ?_, ?_⟩
  · rw [List.take_succ_cons, List.take_zero, jrun_cons, jstep_close]
    simp [jrun]
  · intro m hm
    cases m with
    | zero => simp [jrun]
    | succ j => omega

end JSONAsStringModel

namespace JSONAsStringModel

/-- Soundness of the scan loop against the reference machine, by strong
induction on a length bound: a successful scan consumes a span that ends
with the closing brace at the first point where the machine balance
returns to zero. -/
theorem scanAux_sound (L : Nat) :
    ∀ (s : List Char) (bal : Nat) (q : Bool) (n : Nat), s.length ≤ L →
      scanAux s (bal + 1) q = some n → ScanSpec s (bal + 1) q n := by
  induction L with
  | zero =>
    intro s bal q n hL h
    cases s with
    | nil => rw [scanAux_nil] at h; exact Option.noConfusion h
    | cons ch rest => simp at hL
  | succ L ih =>
    intro s bal q n hL h
    cases s with
    | nil => rw [scanAux_nil] at h; exact Option.noConfusion h
    | cons ch rest =>
      have hrest : rest.length ≤ L := by
        simp only [List.length_cons] at hL
        omega
      cases q with
      | true =>
        by_cases hq2 : ch = quoteChar
        · subst hq2
          rw [scanAux_quote_close] at h
          obtain ⟨k, hscan, rfl⟩ := map_add_eq_some _ _ _ h
          exact ScanSpec_cons _ _ _ _ _ _ _ (jstep_quote_in (bal + 1))
            (ih rest bal false k hrest hscan)
        · by_cases hb2 : ch = backslashChar
          · subst hb2
            cases rest with
            | nil =>
              rw [scanAux_quote_escape_nil] at h
              exact Option.noConfusion h
            | cons x rest2 =>
              rw [scanAux_quote_escape] at h
              obtain ⟨k, hscan, rfl⟩ := map_add_eq_some _ _ _ h
              have hrest2 : rest2.length ≤ L := by
                simp only [List.length_cons] at hrest
                omega
              exact ScanSpec_escape _ _ _ _ _ _ (jstep_backslash_in (bal + 1))
                (ih rest2 bal true k hrest2 hscan)
          · rw [scanAux_quote_other ch rest bal hq2 hb2] at h
            obtain ⟨k, hscan, rfl⟩ := map_add_eq_some _ _ _ h
            exact ScanSpec_cons _ _ _ _ _ _ _ (jstep_other_in (bal + 1) ch hq2 hb2)
              (ih rest bal true k hrest hscan)
      | false =>
        by_cases ho2 : ch = braceOpen
        · subst ho2
          rw [scanAux_open] at h
          obtain ⟨k, hscan, rfl⟩ := map_add_eq_some _ _ _ h
          exact ScanSpec_cons _ _ _ _ _ _ _ (jstep_open (bal + 1))
            (ih rest (bal + 1) false k hrest hscan)
        · by_cases hc2 : ch = braceClose
          · subst hc2
            rw [scanAux_close] at h
            obtain ⟨k, hscan, rfl⟩ := map_add_eq_some _ _ _ h
            cases bal with
            | zero =>
              rw [scanAux_zero] at hscan
              have hk := (Option.some.inj hscan).symm
              subst hk
              exact ScanSpec_close_base rest
            | succ b =>
              refine ScanSpec_cons _ _ _ _ _ _ _ ?_ (ih rest b false k hrest hscan)
              rw [jstep_close]
              simp
          · by_cases hb2 : ch = backslashChar
            · subst hb2
              cases rest with
              | nil =>
                rw [scanAux_out_escape_nil] at h
                exact Option.noConfusion h
              | cons x rest2 =>
                rw [scanAux_out_escape] at h
                obtain ⟨k, hscan, rfl⟩ := map_add_eq_some _ _ _ h
                have hrest2 : rest2.length ≤ L := by
                  simp only [List.length_cons] at hrest
                  omega
                exact ScanSpec_escape _ _ _ _ _ _ (jstep_backslash_out (bal + 1))
                  (ih rest2 bal false k hrest2 hscan)
            · by_cases hu2 : ch = quoteChar
              · subst hu2
                rw [scanAux_out_quote] at h
                obtain ⟨k, hscan, rfl⟩ := map_add_eq_some _ _ _ h
                exact ScanSpec_cons _ _ _ _ _ _ _ (jstep_quote_out (bal + 1))
                  (ih rest bal true k hrest hscan)
              · rw [scanAux_out_other ch rest bal ho2 hc2 hb2 hu2] at h
                obtain ⟨k, hscan, rfl⟩ := map_add_eq_some _ _ _ h
                exact ScanSpec_cons _ _ _ _ _ _ _
                  (jstep_other_out (bal + 1) ch ho2 hc2 hu2 hb2)
                  (ih rest bal false k hrest hscan)

end JSONAsStringModel

namespace JSONAsStringModel

/-- Pushing a never-balancing tail through one consumed byte. -/
theorem noZero_cons (ch : Char) (rest : List Char) (bal bal2 : Nat)
    (q q2 : Bool)
    (hstep : jstep ⟨bal + 1, q, false⟩ ch = ⟨bal2 + 1, q2, false⟩)
    (hrest : ∀ m, m ≤ rest.length →
      (jrun (rest.take m) ⟨bal2 + 1, q2, false⟩).balance ≠ 0) :
    ∀ m, m ≤ (ch :: rest).length →
      (jrun ((ch :: rest).take m) ⟨bal + 1, q, false⟩).balance ≠ 0 := by
  intro m hm
  cases m with
  | zero => simp [jrun]
  | succ j =>
    rw [List.take_succ_cons, jrun_cons, hstep]
    refine hrest j ?_
    simp only [List.length_cons] at hm
    omega

/-- Pushing a never-balancing tail through an escape pair. -/
theorem noZero_escape (ch x : Char) (rest2 : List Char) (bal : Nat) (q : Bool)
    (hstep : jstep ⟨bal + 1, q, false⟩ ch = ⟨bal + 1, q, true⟩)
    (hrest : ∀ m, m ≤ rest2.length →
      (jrun (rest2.take m) ⟨bal + 1, q, false⟩).balance ≠ 0) :
    ∀ m, m ≤ (ch :: x :: rest2).length →
      (jrun ((ch :: x :: rest2).take m) ⟨bal + 1, q, false⟩).balance ≠ 0 := by
  intro m hm
  cases m with
  | zero => simp [jrun]
  | succ m2 =>
    cases m2 with
    | zero =>
      rw [List.take_succ_cons, List.take_zero, jrun_cons, hstep]
      simp [jrun]
    | succ j =>
      rw [List.take_succ_cons, List.take_succ_cons, jrun_cons, jrun_cons, hstep,
        jstep_escaped]
      refine hrest j ?_
      simp only [List.length_cons] at hm
      omega

/-- Completeness of the scan loop: a failing scan means the machine balance
stays non-zero after every prefix of the remaining buffer. -/
theorem scanAux_none (L : Nat) :
    ∀ (s : List Char) (bal : Nat) (q : Bool), s.length ≤ L →
      scanAux s (bal + 1) q = none →
      ∀ m, m ≤ s.length → (jrun (s.take m) ⟨bal + 1, q, false⟩).balance ≠ 0 := by
  induction L with
  | zero =>
    intro s bal q hL h m hm
    cases s with
    | nil =>
      have hm0 : m = 0 := by simpa using hm
      subst hm0
      simp [jrun]
    | cons ch rest => simp at hL
  | succ L ih =>
    intro s bal q hL h
    cases s with
    | nil =>
      intro m hm
      have hm0 : m = 0 := by simpa using hm
      subst hm0
      simp [jrun]
    | cons ch rest =>
      have hrest : rest.length ≤ L := by
        simp only [List.length_cons] at hL
        omega
      cases q with
      | true =>
        by_cases hq2 : ch = quoteChar
        · subst hq2
          rw [scanAux_quote_close] at h
          exact noZero_cons _ _ _ _ _ _ (jstep_quote_in (bal + 1))
            (ih rest bal false hrest (map_add_eq_none _ _ h))
        · by_cases hb2 : ch = backslashChar
          · subst hb2
            cases rest with
            | nil =>
              intro m hm
              cases m with
              | zero => simp [jrun]
              | succ j =>
                have hj : j = 0 := by simpa using hm
                subst hj
                rw [List.take_succ_cons, List.take_nil, jrun_cons,
                  jstep_backslash_in]
                simp [jrun]
            | cons x rest2 =>
              rw [scanAux_quote_escape] at h
              have hrest2 : rest2.length ≤ L := by
                simp only [List.length_cons] at hrest
                omega
              exact noZero_escape _ _ _ _ _ (jstep_backslash_in (bal + 1))
                (ih rest2 bal true hrest2 (map_add_eq_none _ _ h))
          · rw [scanAux_quote_other ch rest bal hq2 hb2] at h
            exact noZero_cons _ _ _ _ _ _ (jstep_other_in (bal + 1) ch hq2 hb2)
              (ih rest bal true hrest (map_add_eq_none _ _ h))
      | false =>
        by_cases ho2 : ch = braceOpen
        · subst ho2
          rw [scanAux_open] at h
          exact noZero_cons _ _ _ _ _ _ (jstep_open (bal + 1))
            (ih rest (bal + 1) false hrest (map_add_eq_none _ _ h))
        · by_cases hc2 : ch = braceClose
          · subst hc2
            rw [scanAux_close] at h
            have h2 := map_add_eq_none _ _ h
            cases bal with
            | zero =>
              rw [scanAux_zero] at h2
              exact Option.noConfusion h2
            | succ b =>
              refine noZero_cons _ _ _ _ _ _ ?_ (ih rest b false hrest h2)
              rw [jstep_close]
              simp
          · by_cases hb2 : ch = backslashChar
            · subst hb2
              cases rest with
              | nil =>
                intro m hm
                cases m with
                | zero => simp [jrun]
                | succ j =>
                  have hj : j = 0 := by simpa using hm
                  subst hj
                  rw [List.take_succ_cons, List.take_nil, jrun_cons,
                    jstep_backslash_out]
                  simp [jrun]
              | cons x rest2 =>
                rw [scanAux_out_escape] at h
                have hrest2 : rest2.length ≤ L := by
                  simp only [List.length_cons] at hrest
                  omega
                exact noZero_escape _ _ _ _ _ (jstep_backslash_out (bal + 1))
                  (ih rest2 bal false hrest2 (map_add_eq_none _ _ h))
            · by_cases hu2 : ch = quoteChar
              · subst hu2
                rw [scanAux_out_quote] at h
                exact noZero_cons _ _ _ _ _ _ (jstep_quote_out (bal + 1))
                  (ih rest bal true hrest (map_add_eq_none _ _ h))
              · rw [scanAux_out_other ch rest bal ho2 hc2 hb2 hu2] at h
                exact noZero_cons _ _ _ _ _ _
                  (jstep_other_out (bal + 1) ch ho2 hc2 hu2 hb2)
                  (ih rest bal false hrest (map_add_eq_none _ _ h))

end JSONAsStringModel

namespace JSONAsStringModel

/-- Characterization of a successful readJSONObject call: the buffer splits
into the inserted span followed by the remaining bytes, the span starts at
the opening brace and ends with the matching closing brace, and the
reference machine balance over the span is zero at its end and only there. -/
theorem readJSONObject_ok (input span rest2 : List Char)
    (h : readJSONObject input = Except.ok (span, rest2)) :
    input = span ++ rest2 ∧ span.head? = some braceOpen ∧
    (∃ t, span = t ++ [braceClose]) ∧
    (jrun span ⟨0, false, false⟩).balance = 0 ∧
    (∀ m, 0 < m → m < span.length →
      (jrun (span.take m) ⟨0, false, false⟩).balance ≠ 0) := by
  cases input with
  | nil => simp [readJSONObject] at h
  | cons ch rest =>
    by_cases ho : ch = braceOpen
    · subst ho
      cases hscan : scanAux rest 1 false with
      | none => simp [readJSONObject, hscan] at h
      | some n =>
        simp [readJSONObject, hscan] at h
        obtain ⟨hspan, hrest2⟩ := h
        subst hspan
        subst hrest2
        have hspec : ScanSpec rest 1 false n :=
          scanAux_sound rest.length rest 0 false n (Nat.le_refl _) hscan
        obtain ⟨hs1, hs2, ⟨t, ht⟩, hs4, hs5⟩ := hspec
        have hlen : (rest.take n).length = n := by
          rw [List.length_take]
          exact Nat.min_eq_left hs2
        refine ⟨?_, rfl, ⟨braceOpen :: t, ?_⟩, ?_, ?_⟩
        · simp [List.take_append_drop]
        · rw [List.cons_append, ht]
        · rw [jrun_cons, jstep_open]
          exact hs4
        · intro m hm0 hmlen
          cases m with
          | zero => omega
          | succ j =>
            have hjn : j < n := by
              simp only [List.length_cons, hlen] at hmlen
              omega
            rw [List.take_succ_cons, jrun_cons, jstep_open, List.take_take,
              Nat.min_eq_left (Nat.le_of_lt hjn)]
            exact hs5 j hjn
    · simp [readJSONObject, ho] at h

/-- Characterization of the INCORRECT_DATA raise: it happens exactly when
the first byte is not the opening brace or the machine balance stays
non-zero after every non-empty prefix of the buffer (end of input before
the object closes). -/
theorem readJSONObject_error_iff (input : List Char) :
    readJSONObject input = Except.error ReadErr.incorrectData ↔
      (input.head? ≠ some braceOpen ∨
       ∀ n, 0 < n → n ≤ input.length →
         (jrun (input.take n) ⟨0, false, false⟩).balance ≠ 0) := by
  cases input with
  | nil => simp [readJSONObject]
  | cons ch rest =>
    by_cases ho : ch = braceOpen
    · subst ho
      cases hscan : scanAux rest 1 false with
      | some n =>
        constructor
        · intro h
          simp [readJSONObject, hscan] at h
        · intro hr
          exfalso
          cases hr with
          | inl hh => exact hh rfl
          | inr hall =>
            have hspec : ScanSpec rest 1 false n :=
              scanAux_sound rest.length rest 0 false n (Nat.le_refl _) hscan
            obtain ⟨hs1, hs2, _, hs4, _⟩ := hspec
            apply hall (n + 1) (Nat.succ_pos n)
              (by simp only [List.length_cons]; omega)
            rw [List.take_succ_cons, jrun_cons, jstep_open]
            exact hs4
      | none =>
        constructor
        · intro h
          right
          intro n h0 hlen
          cases n with
          | zero => omega
          | succ j =>
            rw [List.take_succ_cons, jrun_cons, jstep_open]
            refine scanAux_none rest.length rest 0 false (Nat.le_refl _) hscan j ?_
            simp only [List.length_cons] at hlen
            omega
        · intro hr
          simp [readJSONObject, hscan]
    · constructor
      · intro h
        left
        simp [ho]
      · intro hr
        simp [readJSONObject, ho]

/-- C10: readJSONObject either raises INCORRECT_DATA, exactly when the
current byte is not an opening brace or the buffer ends before the brace
balance returns to zero (no row is inserted in that case, as the error
carries no span), or it inserts exactly the contiguous span from the
opening brace through its matching closing brace and leaves the buffer
positioned just past it: the input is the span followed by the remaining
bytes, the span starts with the opening brace and ends with the closing
brace, and the quote-and-escape-aware balance is zero at the end of the
span and at no earlier non-empty point, so braces inside quoted strings
and bytes right after a backslash never change the nesting balance. -/
theorem C10_readJSONObject (input : List Char) :
    (∀ span rest2, readJSONObject input = Except.ok (span, rest2) →
      input = span ++ rest2 ∧ span.head? = some braceOpen ∧
      (∃ t, span = t ++ [braceClose]) ∧
      (jrun span ⟨0, false, false⟩).balance = 0 ∧
      (∀ m, 0 < m → m < span.length →
        (jrun (span.take m) ⟨0, false, false⟩).balance ≠ 0)) ∧
    (readJSONObject input = Except.error ReadErr.incorrectData ↔
      (input.head? ≠ some braceOpen ∨
       ∀ n, 0 < n → n ≤ input.length →
         (jrun (input.take n) ⟨0, false, false⟩).balance ≠ 0)) :=
  ⟨fun span rest2 h => readJSONObject_ok input span rest2 h,
   readJSONObject_error_iff input⟩

/-- Witness for C10: on a concrete buffer whose object holds a quoted
closing brace, the parser returns the full object span and the remaining
byte, and the characterization applies to it. -/
theorem C10_readJSONObject_witness :
    readJSONObject inpW = Except.ok (spanW, restW) ∧
    inpW = spanW ++ restW ∧ spanW.head? = some braceOpen ∧
    (jrun spanW ⟨0, false, false⟩).balance = 0 := by
  have h : readJSONObject inpW = Except.ok (spanW, restW) := by rfl
  have h2 := (C10_readJSONObject inpW).1 spanW restW h
  exact ⟨h, h2.1, h2.2.1, h2.2.2.2.1⟩

end JSONAsStringModel
